import Mathlib

/-!
Verification of the span codec and round-trip harness.

The program under study serializes batches of `Span` records (a 16-byte
trace identifier plus a nanosecond timestamp) with the postcard binary
format and checks that decoding the encoding reproduces the batch.

We embed the program shallowly:
  * bytes are `Nat` values below 256, byte buffers are `List Nat`;
  * the base64 standard alphabet with padding models the `base64` crate's
    `BASE64_STANDARD` engine used by `TraceId`'s serde implementations;
  * the postcard wire format is modelled by LEB128 varints (at most 10
    bytes, the cap postcard uses for `u64`), zigzag transformed signed
    integers, strings as a varint byte count followed by the bytes, and
    sequences as a varint element count followed by the elements;
  * the fuzz loop in `main` becomes a step function on a harness state,
    taking the freshly generated batch as an oracle input, where a panic
    (a failed `unwrap` or `assert_eq`) becomes a terminal halted state.
-/

/-- The standard base64 alphabet: maps a 6-bit value (0..63) to the ASCII
code of its digit (A-Z, a-z, 0-9, 43, 47). -/
def b64char (v : Nat) : Nat :=
  if v < 26 then 65 + v
  else if v < 52 then 97 + (v - 26)
  else if v < 62 then 48 + (v - 52)
  else if v = 62 then 43
  else 47

/-- Inverse of the standard base64 alphabet: maps an ASCII code to the
6-bit value it stands for, or `none` when the code is not in the
alphabet (the padding code 61 is not in the alphabet). -/
def b64val (c : Nat) : Option Nat :=
  if 65 ≤ c ∧ c ≤ 90 then some (c - 65)
  else if 97 ≤ c ∧ c ≤ 122 then some (c - 97 + 26)
  else if 48 ≤ c ∧ c ≤ 57 then some (c - 48 + 52)
  else if c = 43 then some 62
  else if c = 47 then some 63
  else none

/-- Standard base64 encoding with padding of a byte sequence, as the
`base64` crate's `BASE64_STANDARD.encode` produces it: three input bytes
become four alphabet characters, a final group of one or two bytes is
padded with one or two 61 (ASCII for the pad sign) characters. -/
def encodeB64 : List Nat → List Nat
  | [] => []
  | [b1] => [b64char (b1 / 4), b64char (b1 % 4 * 16), 61, 61]
  | [b1, b2] =>
    [b64char (b1 / 4), b64char (b1 % 4 * 16 + b2 / 16), b64char (b2 % 16 * 4), 61]
  | b1 :: b2 :: b3 :: rest =>
    b64char (b1 / 4) :: b64char (b1 % 4 * 16 + b2 / 16) ::
      b64char (b2 % 16 * 4 + b3 / 64) :: b64char (b3 % 64) :: encodeB64 rest

/-- Standard base64 decoding with canonical padding, as the `base64`
crate's `BASE64_STANDARD` engine performs it: the input must consist of
four-character groups, padding may only close the final group, and the
unused trailing bits of a padded final group must be zero
(`decode_allow_trailing_bits` is off for this engine). -/
def decodeB64 : List Nat → Option (List Nat)
  | [] => some []
  | c1 :: c2 :: c3 :: c4 :: rest =>
    if c3 = 61 ∧ c4 = 61 ∧ rest = [] then
      match b64val c1, b64val c2 with
      | some v1, some v2 =>
        if v2 % 16 = 0 then some [v1 * 4 + v2 / 16] else none
      | _, _ => none
    else if c4 = 61 ∧ rest = [] then
      match b64val c1, b64val c2, b64val c3 with
      | some v1, some v2, some v3 =>
        if v3 % 4 = 0 then
          some [v1 * 4 + v2 / 16, v2 % 16 * 16 + v3 / 4]
        else none
      | _, _, _ => none
    else
      match b64val c1, b64val c2, b64val c3, b64val c4, decodeB64 rest with
      | some v1, some v2, some v3, some v4, some bs =>
        some ((v1 * 4 + v2 / 16) :: (v2 % 16 * 16 + v3 / 4) :: (v3 % 4 * 64 + v4) :: bs)
      | _, _, _, _, _ => none
  | _ => none

theorem b64val_b64char : ∀ v, v < 64 → b64val (b64char v) = some v := by decide

theorem b64char_ne_pad : ∀ v, v < 64 → b64char v ≠ 61 := by decide

/-- Every byte sequence of bytes below 256 survives base64 encode
followed by decode. -/
theorem decodeB64_encodeB64 :
    ∀ L : List Nat, (∀ b ∈ L, b < 256) → decodeB64 (encodeB64 L) = some L
  | [], _ => rfl
  | [b1], h => by
    have hb1 : b1 < 256 := h b1 (by simp)
    have e1 : b64val (b64char (b1 / 4)) = some (b1 / 4) :=
      b64val_b64char _ (by omega)
    have e2 : b64val (b64char (b1 % 4 * 16)) = some (b1 % 4 * 16) :=
      b64val_b64char _ (by omega)
    simp only [encodeB64, decodeB64]
    simp [e1, e2, Nat.mul_mod_left]
    omega
  | [b1, b2], h => by
    have hb1 : b1 < 256 := h b1 (by simp)
    have hb2 : b2 < 256 := h b2 (by simp)
    have h3 : b64char (b2 % 16 * 4) ≠ 61 := b64char_ne_pad _ (by omega)
    have e1 : b64val (b64char (b1 / 4)) = some (b1 / 4) :=
      b64val_b64char _ (by omega)
    have e2 : b64val (b64char (b1 % 4 * 16 + b2 / 16)) = some (b1 % 4 * 16 + b2 / 16) :=
      b64val_b64char _ (by omega)
    have e3 : b64val (b64char (b2 % 16 * 4)) = some (b2 % 16 * 4) :=
      b64val_b64char _ (by omega)
    simp only [encodeB64, decodeB64]
    simp [e1, e2, e3, h3, Nat.mul_mod_left]
    omega
  | b1 :: b2 :: b3 :: rest, h => by
    have hb1 : b1 < 256 := h b1 (by simp)
    have hb2 : b2 < 256 := h b2 (by simp)
    have hb3 : b3 < 256 := h b3 (by simp)
    have ih : decodeB64 (encodeB64 rest) = some rest :=
      decodeB64_encodeB64 rest (fun b hb => h b (by simp [hb]))
    have h3 : b64char (b2 % 16 * 4 + b3 / 64) ≠ 61 := b64char_ne_pad _ (by omega)
    have h4 : b64char (b3 % 64) ≠ 61 := b64char_ne_pad _ (by omega)
    have e1 : b64val (b64char (b1 / 4)) = some (b1 / 4) :=
      b64val_b64char _ (by omega)
    have e2 : b64val (b64char (b1 % 4 * 16 + b2 / 16)) = some (b1 % 4 * 16 + b2 / 16) :=
      b64val_b64char _ (by omega)
    have e3 : b64val (b64char (b2 % 16 * 4 + b3 / 64)) = some (b2 % 16 * 4 + b3 / 64) :=
      b64val_b64char _ (by omega)
    have e4 : b64val (b64char (b3 % 64)) = some (b3 % 64) :=
      b64val_b64char _ (by omega)
    simp only [encodeB64, decodeB64]
    simp [e1, e2, e3, e4, h3, h4, ih]
    omega

/-- The length of a base64 encoding: four characters for every started
group of three input bytes. -/
theorem encodeB64_length :
    ∀ L : List Nat, (encodeB64 L).length = 4 * ((L.length + 2) / 3)
  | [] => rfl
  | [_] => by simp [encodeB64]
  | [_, _] => by simp [encodeB64]
  | b1 :: b2 :: b3 :: rest => by
    simp only [encodeB64, List.length_cons]
    rw [encodeB64_length rest]
    omega

/-! ## The data model: `DateTime`, `TraceId` bytes, `Span` -/

/-- `DateTime` from the source: wraps a UNIX timestamp in nanoseconds.
The Rust field is an `i64`; we model its value as an integer, and state
the 64-bit range as a hypothesis where an encoding needs it. -/
structure DateTime where
  timestamp_nanos : Int
deriving DecidableEq

/-- `DateTime::from_timestamp_nanos`: create from a UNIX timestamp in
nanoseconds, storing the argument verbatim. -/
def DateTime.from_timestamp_nanos (nanoseconds : Int) : DateTime :=
  ⟨nanoseconds⟩

/-- `DateTime::into_timestamp_nanos`: the stored nanosecond count. -/
def DateTime.into_timestamp_nanos (d : DateTime) : Int :=
  d.timestamp_nanos

/-- `Span` from the source: a trace identifier (its 16 bytes, modelled
as a list of byte values) and a timestamp. -/
structure Span where
  trace_id : List Nat
  span_timestamp : DateTime
deriving DecidableEq

/-- `TraceId::BASE64_LENGTH` from the source. -/
def BASE64_LENGTH : Nat := 24

/-- An integer is representable as a Rust `i64`. -/
abbrev WFi64 (n : Int) : Prop :=
  -(2 ^ 63) ≤ n ∧ n < 2 ^ 63

/-- A well-formed trace identifier: exactly 16 bytes, each below 256
(a Rust `[u8; 16]`). -/
abbrev WFTraceId (t : List Nat) : Prop :=
  t.length = 16 ∧ ∀ b ∈ t, b < 256

/-- A well-formed span: its trace identifier is a 16-byte array and its
timestamp fits an `i64`. -/
abbrev WFSpan (s : Span) : Prop :=
  WFTraceId s.trace_id ∧ WFi64 s.span_timestamp.timestamp_nanos

/-! ## The serde implementations for `TraceId` -/

/-- The error cases of `impl Deserialize for TraceId` in the source: the
length guard produces the message carrying `TraceId::BASE64_LENGTH` and
the actual length (the `LengthMismatch` of the error taxonomy), and a
failed base64 decode into the 16-byte buffer produces the base64 decode
failure message (the `DecodeError` of the taxonomy). -/
inductive TraceIdError where
  | lengthMismatch (expected actual : Nat)
  | decodeError
deriving DecidableEq

/-- Result of deserializing a `TraceId` from an already-read string. -/
inductive TraceIdResult where
  | ok (bytes : List Nat)
  | error (e : TraceIdError)
deriving DecidableEq

/-- `impl Serialize for TraceId` from the source: the serializer is
handed the standard base64 encoding of the 16 bytes, via
`serializer.serialize_str`. This function is the string handed over;
the binary format then adds its own framing around it. -/
def traceIdSerializeStr (bytes : List Nat) : List Nat :=
  encodeB64 bytes

/-- The body of `impl Deserialize for TraceId` from the source, applied
to the string the format layer produced (Rust `String::len` is the byte
length): reject any length other than `TraceId::BASE64_LENGTH` with the
length-mismatch error; otherwise base64-decode with
`decode_slice_unchecked` into a zero-initialized 16-byte buffer, failing
when the input is not valid base64 or the decoded bytes overflow the
buffer; the returned byte count is ignored, so the buffer keeps its
zero tail when fewer than 16 bytes were written. -/
def traceIdDeserializeStr (s : List Nat) : TraceIdResult :=
  if s.length ≠ BASE64_LENGTH then
    .error (.lengthMismatch BASE64_LENGTH s.length)
  else
    match decodeB64 s with
    | none => .error .decodeError
    | some bs =>
      if 16 < bs.length then .error .decodeError
      else .ok (bs ++ List.replicate (16 - bs.length) 0)

/-! ## The postcard wire format

The postcard crate is an external dependency; we model its published
wire format: `u64` as a little-endian LEB128 varint of at most 10
bytes, signed integers through the zigzag transformation, strings as a
varint byte count followed by the UTF-8 bytes, and sequences
(`Vec<T>`) as a varint element count followed by the encoded elements.
`from_bytes` ignores bytes left over after the value. -/

/-- LEB128 varint encoding, emitting 7 bits per byte, least significant
first; the fuel bounds the byte count. -/
def encVarintAux : Nat → Nat → List Nat
  | 0, _ => []
  | fuel + 1, n =>
    if n < 128 then [n] else (n % 128 + 128) :: encVarintAux fuel (n / 128)

/-- postcard's `u64` varint: at most 10 LEB128 bytes, which is exact for
every value below `2 ^ 70` and so for the whole `u64` range. -/
def encVarint (n : Nat) : List Nat :=
  encVarintAux 10 n

/-- Varint decoding: returns the value and the remaining bytes. -/
def decVarint : List Nat → Option (Nat × List Nat)
  | [] => none
  | b :: rest =>
    if b < 128 then some (b, rest)
    else
      match decVarint rest with
      | some (v, r) => some (b - 128 + 128 * v, r)
      | none => none

/-- The zigzag transformation postcard applies to signed integers
before varint encoding: non-negative `n` becomes `2 * n`, negative `n`
becomes `-2 * n - 1`. -/
def zigzag (n : Int) : Nat :=
  if 0 ≤ n then (2 * n).toNat else (-(2 * n) - 1).toNat

/-- Inverse of the zigzag transformation. -/
def unzigzag (m : Nat) : Int :=
  if m % 2 = 0 then (m / 2 : Nat) else -((m / 2 : Nat) : Int) - 1

/-- postcard string encoding: varint byte count, then the bytes. -/
def encPcStr (s : List Nat) : List Nat :=
  encVarint s.length ++ s

/-- postcard string decoding: read the byte count, then take that many
bytes, failing when fewer remain. -/
def decPcStr (l : List Nat) : Option (List Nat × List Nat) :=
  match decVarint l with
  | none => none
  | some (n, rest) =>
    if n ≤ rest.length then some (rest.take n, rest.drop n) else none

/-- `serde_datetime::serialize` over postcard: `serialize_i64` of the
nanosecond count becomes a zigzag varint. -/
def encDateTime (d : DateTime) : List Nat :=
  encVarint (zigzag d.into_timestamp_nanos)

/-- `serde_datetime::deserialize` over postcard: read a zigzag varint,
reject values outside the `u64` varint range, and rebuild the
`DateTime` with `DateTime::from_timestamp_nanos`. -/
def decDateTime (l : List Nat) : Option (DateTime × List Nat) :=
  match decVarint l with
  | none => none
  | some (m, rest) =>
    if m < 2 ^ 64 then some (DateTime.from_timestamp_nanos (unzigzag m), rest)
    else none

/-- A `TraceId` on the postcard wire: the base64 string of
`impl Serialize for TraceId`, framed as a postcard string. -/
def encTraceId (bytes : List Nat) : List Nat :=
  encPcStr (traceIdSerializeStr bytes)

/-- Decoding a `TraceId` from the postcard wire: read a postcard
string, then run `impl Deserialize for TraceId` on it. -/
def decTraceId (l : List Nat) : Option (List Nat × List Nat) :=
  match decPcStr l with
  | none => none
  | some (s, rest) =>
    match traceIdDeserializeStr s with
    | .ok bytes => some (bytes, rest)
    | .error _ => none

/-- A `Span` on the postcard wire: derived `Serialize` writes the
fields in declaration order, `trace_id` then `span_timestamp`. -/
def encSpan (s : Span) : List Nat :=
  encTraceId s.trace_id ++ encDateTime s.span_timestamp

/-- Decoding one `Span` from the postcard wire. -/
def decSpan (l : List Nat) : Option (Span × List Nat) :=
  match decTraceId l with
  | none => none
  | some (tid, rest) =>
    match decDateTime rest with
    | none => none
    | some (ts, rest2) => some (⟨tid, ts⟩, rest2)

/-- The encoded elements of a batch, in order. -/
def encSpanList : List Span → List Nat
  | [] => []
  | s :: rest => encSpan s ++ encSpanList rest

/-- `postcard::to_allocvec` applied to a `Vec<Span>`: varint element
count, then the encoded elements. -/
def encodeSpans (l : List Span) : List Nat :=
  encVarint l.length ++ encSpanList l

/-- Decoding a known number of spans. -/
def decSpanListAux : Nat → List Nat → Option (List Span × List Nat)
  | 0, l => some ([], l)
  | n + 1, l =>
    match decSpan l with
    | none => none
    | some (s, rest) =>
      match decSpanListAux n rest with
      | none => none
      | some (ss, rest2) => some (s :: ss, rest2)

/-- `postcard::from_bytes` for a `Vec<Span>`: read the element count,
then that many spans; bytes left over are ignored. -/
def decodeSpans (l : List Nat) : Option (List Span) :=
  match decVarint l with
  | none => none
  | some (n, rest) =>
    match decSpanListAux n rest with
    | none => none
    | some (ss, _) => some ss

/-! ## The round-trip harness

`main` loops: generate a random batch, `to_allocvec(..).unwrap()`,
`from_bytes(..).unwrap()`, `assert_eq!` of the two batches. We model one
loop iteration as a step function on a harness state, taking the batch
the generator produced as an oracle input; a panic (a failed `unwrap`
or a failed assertion) becomes a terminal halted state. For these
types postcard's encoder cannot fail, and the model's encoder is a
total function, so the encode-failure state is never entered from the
running state; it is still terminal. -/

inductive HarnessState where
  | running
  | haltedEncodeFailure
  | haltedDecodeFailure
  | haltedMismatchFailure
deriving DecidableEq

/-- One iteration of the loop in `main`, on the batch the generator
produced: in the running state, encode, decode, and compare; stay
running exactly when the decoded batch equals the original. Halted
states are terminal. -/
def harnessStep (st : HarnessState) (spans : List Span) : HarnessState :=
  match st with
  | .running =>
    match decodeSpans (encodeSpans spans) with
    | none => .haltedDecodeFailure
    | some out => if out = spans then .running else .haltedMismatchFailure
  | st => st

/-! ## The derived ordering on `Span`

Rust derives `Ord` on `Span` field by field in declaration order,
`trace_id` (a 16-byte array, compared element-wise) before
`span_timestamp` (its `i64`, compared numerically). We embed the
derived comparators. -/

/-- Comparator on byte values, as Rust `Ord` on `u8`. -/
def cmpNat (a b : Nat) : Ordering :=
  if a < b then .lt else if b < a then .gt else .eq

/-- Comparator on `i64` values, as Rust `Ord` on `i64`. -/
def cmpInt (a b : Int) : Ordering :=
  if a < b then .lt else if b < a then .gt else .eq

/-- Derived comparator on byte arrays: element-wise, first difference
decides. -/
def cmpBytes : List Nat → List Nat → Ordering
  | [], [] => .eq
  | [], _ :: _ => .lt
  | _ :: _, [] => .gt
  | a :: xs, b :: ys =>
    match cmpNat a b with
    | .eq => cmpBytes xs ys
    | o => o

/-- Derived comparator on `DateTime`: its single `i64` field. -/
def cmpDateTime (a b : DateTime) : Ordering :=
  cmpInt a.timestamp_nanos b.timestamp_nanos

/-- Derived comparator on `Span`: `trace_id` first, then
`span_timestamp`. -/
def spanCmp (a b : Span) : Ordering :=
  match cmpBytes a.trace_id b.trace_id with
  | .eq => cmpDateTime a.span_timestamp b.span_timestamp
  | o => o

/-- The strict order `a < b` the derived `Ord` on `Span` induces. -/
def spanLt (a b : Span) : Prop :=
  spanCmp a b = .lt

/-- Byte-wise lexicographic strict order on byte sequences, written
directly: the claim's notion of `trace_id` comparison. -/
def bytesLtB : List Nat → List Nat → Bool
  | [], [] => false
  | [], _ :: _ => true
  | _ :: _, [] => false
  | a :: xs, b :: ys =>
    if a < b then true else if a = b then bytesLtB xs ys else false

/-! ## Round-trip lemmas for the postcard layer -/

theorem decVarint_encVarintAux :
    ∀ (fuel : Nat), ∀ (n : Nat) (rest : List Nat), n < 128 ^ fuel → 1 ≤ fuel →
      decVarint (encVarintAux fuel n ++ rest) = some (n, rest) := by
  intro fuel
  induction fuel with
  | zero => intro n rest _ h1; omega
  | succ f ihf =>
    intro n rest h _
    simp only [encVarintAux]
    by_cases hn : n < 128
    · rw [if_pos hn]
      simp [decVarint, hn]
    · rw [if_neg hn]
      have hf : 1 ≤ f := by
        rcases Nat.eq_zero_or_pos f with hf0 | hf0
        · subst hf0; simp at h; omega
        · exact hf0
      have hdiv : n / 128 < 128 ^ f := by
        have hpow : (128 : Nat) ^ (f + 1) = 128 ^ f * 128 := by ring
        rw [hpow] at h
        exact Nat.lt_of_mul_lt_mul_right (by
          calc n / 128 * 128 ≤ n := Nat.div_mul_le_self n 128
          _ < 128 ^ f * 128 := h)
      have ih2 := ihf (n / 128) rest hdiv hf
      simp only [List.cons_append, decVarint, List.append_eq, if_neg (by omega : ¬ n % 128 + 128 < 128), ih2]
      simp only [Option.some.injEq, Prod.mk.injEq, and_true]
      omega

theorem decVarint_encVarint (n : Nat) (rest : List Nat) (h : n < 2 ^ 70) :
    decVarint (encVarint n ++ rest) = some (n, rest) := by
  have hpow : (128 : Nat) ^ 10 = 2 ^ 70 := by norm_num
  exact decVarint_encVarintAux 10 n rest (by rw [hpow]; exact h) (by norm_num)

theorem take_len_append (l r : List Nat) : (l ++ r).take l.length = l := by
  induction l with
  | nil => simp
  | cons a xs ih => simp [ih]

theorem drop_len_append (l r : List Nat) : (l ++ r).drop l.length = r := by
  induction l with
  | nil => simp
  | cons a xs ih => simp [ih]

theorem decPcStr_encPcStr (s rest : List Nat) (h : s.length < 2 ^ 70) :
    decPcStr (encPcStr s ++ rest) = some (s, rest) := by
  simp only [encPcStr, decPcStr, List.append_assoc,
    decVarint_encVarint s.length (s ++ rest) h]
  rw [if_pos (by simp)]
  rw [take_len_append, drop_len_append]

theorem zigzag_lt (n : Int) (h : WFi64 n) : zigzag n < 2 ^ 64 := by
  obtain ⟨h1, h2⟩ := h
  simp only [zigzag]
  split <;> omega

theorem unzigzag_zigzag (n : Int) : unzigzag (zigzag n) = n := by
  simp only [zigzag, unzigzag]
  split <;> split <;> omega

theorem decDateTime_encDateTime (d : DateTime) (rest : List Nat)
    (h : WFi64 d.timestamp_nanos) :
    decDateTime (encDateTime d ++ rest) = some (d, rest) := by
  have hz : zigzag d.into_timestamp_nanos < 2 ^ 64 := zigzag_lt _ h
  have h70 : zigzag d.into_timestamp_nanos < 2 ^ 70 :=
    lt_trans hz (by norm_num)
  simp only [encDateTime, decDateTime, decVarint_encVarint _ rest h70]
  rw [if_pos hz]
  simp [unzigzag_zigzag, DateTime.from_timestamp_nanos, DateTime.into_timestamp_nanos]

theorem traceIdDeserializeStr_roundtrip (t : List Nat) (h : WFTraceId t) :
    traceIdDeserializeStr (traceIdSerializeStr t) = .ok t := by
  obtain ⟨hlen, hbytes⟩ := h
  have hb64len : (encodeB64 t).length = 24 := by
    rw [encodeB64_length, hlen]
  have hdec : decodeB64 (encodeB64 t) = some t := decodeB64_encodeB64 t hbytes
  simp only [traceIdSerializeStr, traceIdDeserializeStr, BASE64_LENGTH, hb64len,
    hdec, hlen]
  simp

theorem decTraceId_encTraceId (t : List Nat) (rest : List Nat) (h : WFTraceId t) :
    decTraceId (encTraceId t ++ rest) = some (t, rest) := by
  have hlt : (traceIdSerializeStr t).length < 2 ^ 70 := by
    rw [traceIdSerializeStr, encodeB64_length, h.1]; norm_num
  simp only [encTraceId, decTraceId, decPcStr_encPcStr _ rest hlt,
    traceIdDeserializeStr_roundtrip t h]

theorem decSpan_encSpan (s : Span) (rest : List Nat) (h : WFSpan s) :
    decSpan (encSpan s ++ rest) = some (s, rest) := by
  obtain ⟨ht, hts⟩ := h
  simp only [encSpan, decSpan, List.append_assoc,
    decTraceId_encTraceId s.trace_id _ ht,
    decDateTime_encDateTime s.span_timestamp rest hts]

theorem decSpanListAux_encSpanList :
    ∀ (l : List Span) (rest : List Nat), (∀ s ∈ l, WFSpan s) →
      decSpanListAux l.length (encSpanList l ++ rest) = some (l, rest)
  | [], rest, _ => rfl
  | s :: ss, rest, h => by
    have ih := decSpanListAux_encSpanList ss rest (fun x hx => h x (by simp [hx]))
    simp only [List.length_cons, encSpanList, decSpanListAux, List.append_assoc,
      decSpan_encSpan s _ (h s (by simp)), ih]

theorem decodeSpans_encodeSpans (l : List Span) (hlen : l.length < 2 ^ 70)
    (h : ∀ s ∈ l, WFSpan s) : decodeSpans (encodeSpans l) = some l := by
  have hbody := decSpanListAux_encSpanList l [] h
  rw [List.append_nil] at hbody
  simp only [encodeSpans, decodeSpans,
    decVarint_encVarint l.length (encSpanList l) hlen, hbody]

/-! ## The derived comparators, characterized -/

theorem cmpNat_eq_lt (a b : Nat) : cmpNat a b = .lt ↔ a < b := by
  unfold cmpNat
  split_ifs with h1 h2
  · simp [h1]
  · simp
    omega
  · simp
    omega

theorem cmpNat_eq_eq (a b : Nat) : cmpNat a b = .eq ↔ a = b := by
  unfold cmpNat
  split_ifs with h1 h2
  · simp
    omega
  · simp
    omega
  · simp
    omega

theorem cmpInt_eq_lt (a b : Int) : cmpInt a b = .lt ↔ a < b := by
  unfold cmpInt
  split_ifs with h1 h2
  · simp [h1]
  · simp
    omega
  · simp
    omega

theorem cmpBytes_lt_iff :
    ∀ x y : List Nat, (cmpBytes x y = .lt ↔ bytesLtB x y = true)
  | [], [] => by simp [cmpBytes, bytesLtB]
  | [], _ :: _ => by simp [cmpBytes, bytesLtB]
  | _ :: _, [] => by simp [cmpBytes, bytesLtB]
  | a :: xs, b :: ys => by
    have ih := cmpBytes_lt_iff xs ys
    simp only [cmpBytes, bytesLtB]
    cases h : cmpNat a b with
    | lt =>
      have hab : a < b := (cmpNat_eq_lt a b).mp h
      simp [hab]
    | eq =>
      have hab : a = b := (cmpNat_eq_eq a b).mp h
      subst hab
      simp [ih]
    | gt =>
      have h1 : ¬ a < b := fun hc => by
        rw [(cmpNat_eq_lt a b).mpr hc] at h; exact Ordering.noConfusion h
      have h2 : a ≠ b := fun hc => by
        rw [(cmpNat_eq_eq a b).mpr hc] at h; exact Ordering.noConfusion h
      simp [h1, h2]

theorem cmpBytes_eq_iff :
    ∀ x y : List Nat, (cmpBytes x y = .eq ↔ x = y)
  | [], [] => by simp [cmpBytes]
  | [], _ :: _ => by simp [cmpBytes]
  | _ :: _, [] => by simp [cmpBytes]
  | a :: xs, b :: ys => by
    have ih := cmpBytes_eq_iff xs ys
    simp only [cmpBytes]
    cases h : cmpNat a b with
    | lt =>
      have hab : a < b := (cmpNat_eq_lt a b).mp h
      simp [List.cons.injEq]
      intro hc
      omega
    | eq =>
      have hab : a = b := (cmpNat_eq_eq a b).mp h
      subst hab
      simp [ih]
    | gt =>
      have h2 : a ≠ b := fun hc => by
        rw [(cmpNat_eq_eq a b).mpr hc] at h; exact Ordering.noConfusion h
      simp [List.cons.injEq, h2]

/-! ## The claims -/

/-- C1: for every batch of well-formed spans with length between 1 and
10000, decoding the binary encoding succeeds and yields a batch equal
to the original, element-wise and in order, field by field (structural
equality of the trace id bytes and the nanosecond counts). -/
theorem span_batch_roundtrip (l : List Span)
    (h1 : 1 ≤ l.length) (h2 : l.length ≤ 10000) (h : ∀ s ∈ l, WFSpan s) :
    decodeSpans (encodeSpans l) = some l :=
  decodeSpans_encodeSpans l (lt_of_le_of_lt h2 (by norm_num)) h

theorem span_batch_roundtrip_witness :
    decodeSpans (encodeSpans [⟨List.replicate 16 0, ⟨0⟩⟩]) =
      some [⟨List.replicate 16 0, ⟨0⟩⟩] :=
  span_batch_roundtrip [⟨List.replicate 16 0, ⟨0⟩⟩]
    (by decide) (by decide) (by decide)

/-- C2, as stated, is false: the binary encoding of a `Span` does not
begin with the 16 raw trace id bytes; the code serializes the trace id
through `serialize_str` of its base64 text even on the binary path, so
the wire carries a length byte and 24 base64 characters instead. At the
zero span the first 16 encoded bytes differ from the 16 zero bytes. -/
theorem span_binary_not_raw_bytes :
    ¬ ((encSpan ⟨List.replicate 16 0, ⟨0⟩⟩).take 16 = List.replicate 16 0) := by
  decide

/-- C2 amended: every well-formed `Span` is encoded as its trace id's
base64 text — framed as a postcard string, a count byte 24 followed by
the 24 base64 characters — and then its `DateTime`'s nanosecond count
as a zigzag varint signed 64-bit integer. -/
theorem span_binary_base64_layout (s : Span) (h : WFTraceId s.trace_id) :
    encSpan s =
        24 :: traceIdSerializeStr s.trace_id ++
          encVarint (zigzag s.span_timestamp.into_timestamp_nanos) ∧
      (traceIdSerializeStr s.trace_id).length = 24 := by
  have hlen : (traceIdSerializeStr s.trace_id).length = 24 := by
    rw [traceIdSerializeStr, encodeB64_length, h.1]
  constructor
  · simp only [encSpan, encTraceId, encPcStr, encDateTime, hlen]
    rfl
  · exact hlen

theorem span_binary_base64_layout_witness :
    encSpan ⟨List.replicate 16 255, ⟨1⟩⟩ =
        24 :: traceIdSerializeStr (List.replicate 16 255) ++
          encVarint (zigzag 1) ∧
      (traceIdSerializeStr (List.replicate 16 255)).length = 24 :=
  span_binary_base64_layout ⟨List.replicate 16 255, ⟨1⟩⟩ (by decide)

/-- C3: deserializing a `TraceId` from any string whose byte length is
not 24 fails with the length-mismatch error carrying the expected
length 24 and the actual length; the decoder is a total function, so it
neither panics nor coerces the input. -/
theorem trace_id_bad_length_rejected (s : List Nat) (h : s.length ≠ 24) :
    traceIdDeserializeStr s = .error (.lengthMismatch 24 s.length) := by
  simp only [traceIdDeserializeStr, BASE64_LENGTH]
  rw [if_pos h]

theorem trace_id_bad_length_rejected_witness :
    traceIdDeserializeStr (List.replicate 23 65) =
      .error (.lengthMismatch 24 (List.replicate 23 65).length) :=
  trace_id_bad_length_rejected (List.replicate 23 65) (by decide)

/-- C4: for every 16-byte array, deserializing the text the `TraceId`
serializer produced yields back exactly the original bytes. -/
theorem trace_id_text_roundtrip (t : List Nat) (h : WFTraceId t) :
    traceIdDeserializeStr (traceIdSerializeStr t) = .ok t :=
  traceIdDeserializeStr_roundtrip t h

theorem trace_id_text_roundtrip_witness :
    traceIdDeserializeStr (traceIdSerializeStr (List.replicate 16 255)) =
      .ok (List.replicate 16 255) :=
  trace_id_text_roundtrip (List.replicate 16 255) (by decide)

/-- C5: the text encoding of every 16-byte trace id has length exactly
24; the zero trace id encodes to the 24-character string of 22 times
the code 65 (A) followed by two 61 (the pad sign), which is
"AAAAAAAAAAAAAAAAAAAAAA==", and that string decodes back to the 16
zero bytes. -/
theorem trace_id_text_length_and_zero (t : List Nat) (h : t.length = 16) :
    (traceIdSerializeStr t).length = 24 ∧
      (t = List.replicate 16 0 →
        traceIdSerializeStr t = List.replicate 22 65 ++ [61, 61] ∧
          traceIdDeserializeStr (List.replicate 22 65 ++ [61, 61]) =
            .ok (List.replicate 16 0)) := by
  constructor
  · rw [traceIdSerializeStr, encodeB64_length, h]
  · rintro rfl
    exact ⟨by decide, by decide⟩

theorem trace_id_text_length_and_zero_witness :
    (traceIdSerializeStr (List.replicate 16 0)).length = 24 ∧
      traceIdSerializeStr (List.replicate 16 0) =
        List.replicate 22 65 ++ [61, 61] := by
  have h := trace_id_text_length_and_zero (List.replicate 16 0) (by decide)
  exact ⟨h.1, (h.2 rfl).1⟩

/-- C6: the binary encoding of a `DateTime` is lossless for every
nanosecond count in the `i64` range, negative values included: decode
after encode returns the same `DateTime` and consumes the whole
buffer. -/
theorem datetime_binary_lossless (d : DateTime) (h : WFi64 d.timestamp_nanos) :
    decDateTime (encDateTime d) = some (d, []) := by
  have hrt := decDateTime_encDateTime d [] h
  rwa [List.append_nil] at hrt

theorem datetime_binary_lossless_witness :
    decDateTime (encDateTime ⟨-(2 ^ 63)⟩) = some (⟨-(2 ^ 63)⟩, []) ∧
      decDateTime (encDateTime ⟨2 ^ 63 - 1⟩) = some (⟨2 ^ 63 - 1⟩, []) :=
  ⟨datetime_binary_lossless ⟨-(2 ^ 63)⟩ (by decide),
    datetime_binary_lossless ⟨2 ^ 63 - 1⟩ (by decide)⟩

/-- C7: `DateTime::from_timestamp_nanos` is total and stores its
argument verbatim, `DateTime::into_timestamp_nanos` is total and
returns the stored value verbatim, so their composition is the
identity on every `i64` value. -/
theorem datetime_nanos_roundtrip (n : Int) (h : WFi64 n) :
    (DateTime.from_timestamp_nanos n).timestamp_nanos = n ∧
      (DateTime.from_timestamp_nanos n).into_timestamp_nanos = n :=
  ⟨rfl, rfl⟩

theorem datetime_nanos_roundtrip_witness :
    (DateTime.from_timestamp_nanos 42).timestamp_nanos = 42 ∧
      (DateTime.from_timestamp_nanos 42).into_timestamp_nanos = 42 :=
  datetime_nanos_roundtrip 42 (by decide)

/-- C8: the harness stays in the running state exactly when the decoded
batch equals the original batch, and every halted state is terminal —
once halted, every further step leaves the state unchanged, so the
harness never runs another iteration after a failure. -/
theorem harness_fail_fast (st : HarnessState) (spans : List Span) :
    (harnessStep .running spans = .running ↔
        decodeSpans (encodeSpans spans) = some spans) ∧
      (st ≠ .running → harnessStep st spans = st) := by
  constructor
  · simp only [harnessStep]
    cases h : decodeSpans (encodeSpans spans) with
    | none => simp
    | some out =>
      by_cases he : out = spans
      · subst he
        simp
      · simp [he]
  · intro hne
    cases st with
    | running => exact absurd rfl hne
    | haltedEncodeFailure => rfl
    | haltedDecodeFailure => rfl
    | haltedMismatchFailure => rfl

theorem harness_fail_fast_witness :
    harnessStep .haltedMismatchFailure [] = .haltedMismatchFailure :=
  (harness_fail_fast .haltedMismatchFailure []).2 (by decide)

/-- C9: the derived strict order on `Span` is lexicographic: `a < b`
exactly when `a`'s trace id is byte-wise lexicographically below `b`'s,
or the trace ids are equal and `a`'s nanosecond count is numerically
below `b`'s. -/
theorem span_order_lexicographic (a b : Span) :
    spanLt a b ↔
      (bytesLtB a.trace_id b.trace_id = true ∨
        (a.trace_id = b.trace_id ∧
          a.span_timestamp.into_timestamp_nanos <
            b.span_timestamp.into_timestamp_nanos)) := by
  simp only [spanLt, spanCmp, DateTime.into_timestamp_nanos]
  cases h : cmpBytes a.trace_id b.trace_id with
  | lt =>
    have hlt : bytesLtB a.trace_id b.trace_id = true :=
      (cmpBytes_lt_iff _ _).mp h
    simp [hlt]
  | eq =>
    have heq : a.trace_id = b.trace_id := (cmpBytes_eq_iff _ _).mp h
    have hnlt : ¬ bytesLtB a.trace_id b.trace_id = true := fun hc => by
      rw [(cmpBytes_lt_iff _ _).mpr hc] at h; exact Ordering.noConfusion h
    rw [heq] at hnlt
    simp [cmpDateTime, cmpInt_eq_lt, heq, hnlt]
  | gt =>
    have hnlt : ¬ bytesLtB a.trace_id b.trace_id = true := fun hc => by
      rw [(cmpBytes_lt_iff _ _).mpr hc] at h; exact Ordering.noConfusion h
    have hne : a.trace_id ≠ b.trace_id := fun hc => by
      rw [(cmpBytes_eq_iff _ _).mpr hc] at h; exact Ordering.noConfusion h
    simp [hnlt, hne]

theorem span_order_lexicographic_witness :
    spanLt ⟨List.replicate 16 0, ⟨5⟩⟩ ⟨1 :: List.replicate 15 0, ⟨0⟩⟩ :=
  (span_order_lexicographic ⟨List.replicate 16 0, ⟨5⟩⟩
      ⟨1 :: List.replicate 15 0, ⟨0⟩⟩).mpr (Or.inl (by decide))

/-- C10: the empty batch, although the generator never produces one, is
accepted by both sides of the binary codec: encoding it succeeds and
decoding that encoding yields the empty batch. -/
theorem empty_batch_roundtrip : decodeSpans (encodeSpans []) = some [] := by
  decide
